import Mathlib

/-!
Verification development for the vibex-node SDK.

The first part embeds the pure normalization engine (`src/normalize.js`):
JavaScript values are modelled by the inductive type `J`, JavaScript plain
objects by ordered association lists (`Obj`) whose assignment operation
(`objSet`) updates in place or appends, matching JS property assignment
for non-integer-like string keys.  The second part embeds the batching
dispatcher (`src/client.js`) as an explicit state machine.
-/

/-- Model of a JavaScript value: `undef` is `undefined`, numbers are
modelled as integers (the repository only manipulates them opaquely or
compares `typeof v === 'number'`), objects are ordered key/value lists. -/
inductive J where
  | undef
  | jnull
  | bool (b : Bool)
  | num (n : Int)
  | str (s : String)
  | arr (elems : List J)
  | obj (fields : List (String × J))

/-- A JavaScript plain object: ordered list of key/value pairs. -/
abbrev Obj := List (String × J)

/-- `typeof v === 'number'`. -/
def J.isNum : J → Bool
  | .num _ => true
  | _ => false

/-- `v === undefined`. -/
def J.isUndef : J → Bool
  | .undef => true
  | _ => false

/-- JavaScript truthiness (NaN is not representable in the `Int` model). -/
def truthy : J → Bool
  | .undef => false
  | .jnull => false
  | .bool b => b
  | .num n => n != 0
  | .str s => s != ""
  | .arr _ => true
  | .obj _ => true

/-- `a || b` on JS values. -/
def jsOr (a b : J) : J := if truthy a then a else b

/-- First value bound to a key, if the key occurs in the list. -/
def getv : Obj → String → Option J
  | [], _ => none
  | kv :: rest, k => if kv.1 = k then some kv.2 else getv rest k

/-- JS property read `o[k]`: `undefined` when the key is absent. -/
def jsGet (o : Obj) (k : String) : J := (getv o k).getD J.undef

/-- Whether the key occurs (JS `k in o`). -/
def hasKey (o : Obj) (k : String) : Bool := o.any (fun kv => kv.1 == k)

/-- JS property assignment `o[k] = v`: overwrite in place, else append. -/
def objSet (o : Obj) (k : String) (v : J) : Obj :=
  if hasKey o k then o.map (fun kv => if kv.1 == k then (k, v) else kv)
  else o ++ [(k, v)]

/-- Does the character-list `pat` occur inside `l`m starting at the head? -/
def startsWithChars : List Char → List Char → Bool
  | [], _ => true
  | _ :: _, [] => false
  | p :: ps, c :: cs => p == c && startsWithChars ps cs

/-- Occurrence of `pat` anywhere in `l` (model of `String.includes`). -/
def containsChars (pat : List Char) : List Char → Bool
  | [] => startsWithChars pat []
  | c :: cs => startsWithChars pat (c :: cs) || containsChars pat cs

/-- Model of JS `s.includes(pat)`. -/
def strContains (s pat : String) : Bool := containsChars pat.toList s.toList

/-- Model of JS `String(v)` as used on log levels; array stringification
recursion is flattened one level (the repository only stringifies level
values, which are scalars in practice). -/
def jsToString : J → String
  | .undef => "undefined"
  | .jnull => "null"
  | .bool b => cond b "true" "false"
  | .num n => toString n
  | .str s => s
  | .obj _ => "[object Object]"
  | .arr elems =>
      String.intercalate "," (elems.map (fun e =>
        match e with
        | .undef => ""
        | .jnull => ""
        | .bool b => cond b "true" "false"
        | .num n => toString n
        | .str s => s
        | .obj _ => "[object Object]"
        | .arr _ => ""))

/-- `normalizeLevel` from src/normalize.js. -/
def normalizeLevel (level : J) : String :=
  if truthy level = false then "debug"
  else
    let levelStr := (jsToString level).toLower
    if ["debug", "dbg", "trace"].contains levelStr then "debug"
    else if ["info", "information", "log"].contains levelStr then "info"
    else if ["warn", "warning", "wrn"].contains levelStr then "warn"
    else if ["error", "err", "exception", "fatal", "critical"].contains levelStr then "error"
    else "debug"

/-- The `knownContextFields` denylist of `extractMetrics` (verbatim from
src/normalize.js, including the camelCase spellings that can never match
the lowercased key). -/
def knownContextFieldsMetrics : List String :=
  ["trace_id", "traceId", "user_id", "userId", "request_id", "requestId",
   "correlation_id", "correlationId", "span_id", "spanId", "session_id", "sessionId",
   "id", "pid", "port", "year", "timestamp", "time", "date", "createdAt", "updatedAt",
   "datetime", "ts", "utc", "iso", "exc_info", "exception", "error", "message", "msg"]

/-- The metric-name pattern test of `extractMetrics` (suffix and substring
heuristics), applied to the key and its lowercased form. -/
def metricNameTest (k kl : String) : Bool :=
  k.endsWith "_ms" || k.endsWith "_count" || k.endsWith "_size" ||
  k.endsWith "Ms" || k.endsWith "Count" || k.endsWith "Size" ||
  ["cpu", "memory", "latency", "response_time", "duration"].any (fun pat => strContains kl pat)

/-- One key/value of the heuristic scan of `extractMetrics`: the `continue`
statements of the source are folded into a single boolean guard. -/
def metricCond (k : String) (v : J) : Bool :=
  let kl := k.toLower
  if knownContextFieldsMetrics.contains kl then false
  else if strContains kl "timestamp" || strContains kl "time" || strContains kl "date" then false
  else if v.isNum then metricNameTest k kl else false

/-- `extractMetrics` from src/normalize.js.  A `metrics` object (truthy,
`typeof 'object'`, not an array — i.e. exactly an `.obj`) is authoritative
and only its numeric entries are copied; otherwise the heuristic scan runs. -/
def extractMetrics (payload : J) : Obj :=
  match payload with
  | .obj fields =>
    match jsGet fields "metrics" with
    | .obj m => m.foldl (fun acc kv => if kv.2.isNum then objSet acc kv.1 kv.2 else acc) []
    | _ => fields.foldl (fun acc kv => if metricCond kv.1 kv.2 then objSet acc kv.1 kv.2 else acc) []
  | _ => []

/-- The field-to-normalized-key table of `extractContext` (in source order). -/
def contextFieldMap : List (String × String) :=
  [("trace_id", "trace_id"), ("traceId", "trace_id"),
   ("user_id", "user_id"), ("userId", "user_id"),
   ("request_id", "request_id"), ("requestId", "request_id"),
   ("correlation_id", "correlation_id"), ("correlationId", "correlation_id"),
   ("span_id", "span_id"), ("spanId", "span_id"),
   ("session_id", "session_id"), ("sessionId", "session_id")]

/-- `extractContext` from src/normalize.js. -/
def extractContext (payload : J) : Obj :=
  match payload with
  | .obj fields =>
    match jsGet fields "context" with
    | .obj cobj => cobj
    | _ =>
      contextFieldMap.foldl (fun acc fm =>
        if (jsGet fields fm.1).isUndef then acc else objSet acc fm.2 (jsGet fields fm.1)) []
  | _ => []

/-- The merge `\x7b...(payload || \x7b\x7d), ...(extra || \x7b\x7d)\x7d` of
`normalizeToHybrid`; non-object operands spread to nothing here (the
callers always pass objects). -/
def mergedOf (payload extra : J) : Obj :=
  let pf : Obj := match payload with | .obj f => f | _ => []
  let ef : Obj := match extra with | .obj f => f | _ => []
  ef.foldl (fun acc kv => objSet acc kv.1 kv.2) pf

/-- The message-resolution of `normalizeToHybrid`: keep the explicit
argument when truthy, else fall back to `merged.message`, else `merged.msg`. -/
def resolveMessage (message : J) (merged : Obj) : J :=
  let m1 := if truthy message = false && truthy (jsGet merged "message") then jsGet merged "message" else message
  if truthy m1 = false && truthy (jsGet merged "msg") then jsGet merged "msg" else m1

/-- The key list excluded by the preservation loop of `normalizeToHybrid`. -/
def excludedKeys : List String :=
  ["message", "msg", "level", "severity", "log_level", "metrics", "context", "_annotation"]

/-- The backward-compatibility preservation loop of `normalizeToHybrid`:
copy every merged key that is not in `excludedKeys` and not already a key
of the hybrid record. -/
def preserveFields (merged : Obj) (hybrid : Obj) : Obj :=
  merged.foldl (fun acc kv =>
    if excludedKeys.contains kv.1 then acc
    else if hasKey acc kv.1 then acc
    else objSet acc kv.1 kv.2) hybrid

/-- The level resolution of `normalizeToHybrid`:
`level || merged.level || merged.severity || merged.log_level`, normalized. -/
def resolvedLevel (level : J) (merged : Obj) : String :=
  normalizeLevel (jsOr level (jsOr (jsGet merged "level")
    (jsOr (jsGet merged "severity") (jsGet merged "log_level"))))

/-- The hybrid record of `normalizeToHybrid` before the preservation loop:
the four fixed fields, plus the optional annotation passthrough. -/
def hybridCore (message level : J) (merged : Obj) : Obj :=
  let hybrid0 : Obj :=
    [("message", resolveMessage message merged),
     ("level", J.str (resolvedLevel level merged)),
     ("metrics", J.obj (extractMetrics (J.obj merged))),
     ("context", J.obj (extractContext (J.obj merged)))]
  let annot := jsGet merged "_annotation"
  if truthy annot then objSet hybrid0 "_annotation" annot else hybrid0

/-- `normalizeToHybrid` from src/normalize.js. -/
def normalizeToHybrid (message level payload extra : J) : Obj :=
  preserveFields (mergedOf payload extra) (hybridCore message level (mergedOf payload extra))

/-!
## Dispatcher state machine (src/client.js)

The dispatcher is embedded as explicit state passing.  Timers and
`setImmediate` callbacks are modelled by instrumentation fields
(`batchTimeout` is the pending-timer flag read by the code, `immediates`
counts scheduled immediate extractions), and the single suspension point
(the HTTP send) takes the response as an explicit argument.  `sent`
records every batch for which an HTTP send was attempted.
-/

/-- Max logs per batch (src/client.js `BATCH_SIZE`). -/
def BATCH_SIZE : Nat := 50

/-- Max wait before a timed batch send, in ms (src/client.js). -/
def BATCH_INTERVAL_MS : Nat := 100

/-- Queue bound (src/client.js `MAX_QUEUE_SIZE`). -/
def MAX_QUEUE_SIZE : Nat := 1000

/-- One queued log entry `[logType, payload, timestamp]`. -/
structure LogEntry where
  logType : String
  payload : J
  timestamp : Nat

/-- A parsed HTTP response: status code, and the JSON body's `error` and
`message` fields (string-valued in the protocol); `body = none` models a
body whose `json()` parsing rejects. -/
structure HttpResponse where
  status : Nat
  body : Option (Option String × Option String)

/-- The mutable fields of `VibexClient`, plus the `immediates` and `sent`
instrumentation (`configValid` stands for `config.isValid()`, which the
code treats as constant for the process). -/
structure DState where
  disabled : Bool
  disabledPermanently : Bool
  configValid : Bool
  logQueue : List LogEntry
  batchTimeout : Bool
  processing : Bool
  shutdown : Bool
  immediates : Nat
  sent : List (List LogEntry)

/-- The `VibexClient` constructor: disabled iff the config is invalid. -/
def initClient (configValid : Bool) : DState :=
  { disabled := !configValid, disabledPermanently := false, configValid := configValid,
    logQueue := [], batchTimeout := false, processing := false, shutdown := false,
    immediates := 0, sent := [] }

/-- The `errorData.message || errorData.error || 'Rate limit exceeded'`
fallback chain of the 429 handler (JS `||` treats the empty string as falsy). -/
def jsStrOr (a : Option String) (b : String) : String :=
  match a with
  | some s => if s = "" then b else s
  | none => b

/-- The history-limit detection of `_sendBatch` for a 429 response:
`errorData.error === 'History Limit Reached'` or the resolved error
message contains `'history limit'` (lowercased). -/
def isHistoryLimitResp (r : HttpResponse) : Bool :=
  match r.body with
  | none => false
  | some be =>
    let errorMessage := jsStrOr be.2 (jsStrOr be.1 "Rate limit exceeded")
    (be.1 == some "History Limit Reached") || strContains errorMessage.toLower "history limit"

/-- `_sendBatch` from src/client.js: state effect of sending one batch,
given the response (`none` models a transport failure, timeout or thrown
error).  A batch is appended to `sent` exactly when the code reaches the
HTTP request. -/
def sendBatchEffect (s : DState) (batch : List LogEntry) (resp : Option HttpResponse) : DState :=
  if batch.isEmpty || s.disabled || s.disabledPermanently then s
  else if s.configValid = false then { s with disabled := true }
  else
    let s1 := { s with sent := s.sent ++ [batch] }
    match resp with
    | none => s1
    | some r =>
      if r.status == 401 || r.status == 403 then { s1 with disabledPermanently := true }
      else if r.status == 429 then
        if isHistoryLimitResp r then { s1 with disabledPermanently := true } else s1
      else s1

/-- `_scheduleBatch` from src/client.js: arm the interval timer unless a
timer is pending, a batch is processing, or the client is shutting down. -/
def scheduleBatch (s : DState) : DState :=
  if s.batchTimeout || s.processing || s.shutdown then s
  else { s with batchTimeout := true }

/-- `_processBatch` from src/client.js, run to completion with the send's
response passed explicitly.  Note the early return when `_shutdown` is set. -/
def processBatch (s : DState) (resp : Option HttpResponse) : DState :=
  if s.processing || s.shutdown || s.logQueue.isEmpty then { s with batchTimeout := false }
  else
    let batch := s.logQueue.take BATCH_SIZE
    let s1 := { s with processing := true, batchTimeout := false,
                       logQueue := s.logQueue.drop BATCH_SIZE }
    let s2 := if 0 < batch.length then sendBatchEffect s1 batch resp else s1
    let s3 := { s2 with processing := false }
    if s3.logQueue.isEmpty = false && s3.shutdown = false then scheduleBatch s3 else s3

/-- `sendLog` from src/client.js (the enqueue operation): returns the new
state and the accepted/rejected flag.  An immediate extraction is
requested (`immediates` incremented) only when no timer is pending,
nothing is processing, and the queue has reached `BATCH_SIZE`. -/
def sendLog (s : DState) (e : LogEntry) : DState × Bool :=
  if s.disabled || s.disabledPermanently then (s, false)
  else if s.configValid = false then ({ s with disabled := true }, false)
  else if MAX_QUEUE_SIZE ≤ s.logQueue.length then (s, false)
  else
    let s1 := { s with logQueue := s.logQueue ++ [e] }
    let s2 :=
      if s1.batchTimeout = false && s1.processing = false then
        if BATCH_SIZE ≤ s1.logQueue.length then { s1 with immediates := s1.immediates + 1 }
        else scheduleBatch s1
      else s1
    (s2, true)

/-- The drain loop of `flush`, fuelled by the list of responses available
for successive sends: while the queue is non-empty and the client is not
disabled in either sense, run `_processBatch`. -/
def flushLoop : List (Option HttpResponse) → DState → DState
  | [], s => s
  | r :: rs, s =>
    if s.logQueue.isEmpty = false && s.disabled = false && s.disabledPermanently = false then
      flushLoop rs (processBatch s r)
    else s

/-- `flush` from src/client.js: a no-op once shutting down, else set the
shutting-down latch, clear the pending timer, and run the drain loop. -/
def flushClient (rs : List (Option HttpResponse)) (s : DState) : DState :=
  if s.shutdown then s
  else flushLoop rs { s with shutdown := true, batchTimeout := false }

/-- An event-loop interaction with the dispatcher: an enqueue, a timer or
immediate callback running `_processBatch`, or a call to `flush`. -/
inductive Op where
  | enq (e : LogEntry)
  | fire (resp : Option HttpResponse)
  | doFlush (rs : List (Option HttpResponse))

/-- Apply one interaction. -/
def stepOp (s : DState) : Op → DState
  | .enq e => (sendLog s e).1
  | .fire resp => processBatch s resp
  | .doFlush rs => flushClient rs s

/-- Apply a sequence of interactions. -/
def runOps (s : DState) (ops : List Op) : DState := ops.foldl stepOp s

/-!
## Handler variants

`src/handler.js` (JSON-only policy) and the hybrid-supporting handler
variant bundled in src/normalize.js.  The platform JSON parser is an
external collaborator and is passed as a function argument; an incoming
winston record is reduced to its resolved message text, level string,
optional resolved error text and non-standard extra fields.  Each model
returns the list of `sendLog` submissions `(logType, payload)` the
handler makes.
-/

/-- The parts of a winston `info` record the handlers read. -/
structure WinstonInfo where
  message : String
  level : String
  err : Option String
  extra : Obj

/-- Does a parse result represent a plain JSON object (not an array)? -/
def isObjParse : Option J → Bool
  | some (.obj _) => true
  | _ => false

/-- `VibexHandler.log` of src/handler.js, reduced to its dispatcher
submissions: a JSON-object message is forwarded (with `exc_info` appended
when an error is attached) iff the client is enabled; anything else is
discarded entirely. -/
def handlerLogSubmissions (parse : String → Option J) (enabled : Bool) (info : WinstonInfo) :
    List (String × J) :=
  match parse info.message with
  | some (.obj o) =>
    let payload := match info.err with
      | some e => objSet o "exc_info" (J.str e)
      | none => o
    if enabled then [("json", J.obj payload)] else []
  | _ => []

/-- `VibexHandler.log` of the hybrid variant (src/normalize.js): a
JSON-object message goes through `normalizeToHybrid`; any other message
is wrapped as a text record with empty metrics/context; the submission is
made iff the client is enabled, always with log type `'json'`. -/
def hybridLogSubmissions (parse : String → Option J) (enabled : Bool) (info : WinstonInfo) :
    List (String × J) :=
  let level := normalizeLevel (J.str info.level)
  let hybrid :=
    match parse info.message with
    | some (.obj o) => normalizeToHybrid (J.str info.message) (J.str level) (J.obj o) (J.obj info.extra)
    | _ =>
      [("message", J.str info.message), ("level", J.str level),
       ("metrics", J.obj []), ("context", J.obj [])]
  let hybrid2 := match info.err with
    | some e => objSet hybrid "exc_info" (J.str e)
    | none => hybrid
  if enabled then [("json", J.obj hybrid2)] else []

/-!
## Association-list lemmas
-/

theorem hasKey_false_iff_getv_none (o : Obj) (k : String) :
    hasKey o k = false ↔ getv o k = none := by
  induction o with
  | nil => simp [hasKey, getv]
  | cons kv rest ih =>
    simp only [hasKey, List.any_cons, getv, Bool.or_eq_false_iff] at *
    by_cases h : kv.1 = k
    · simp [h]
    · simp [h, ih, beq_iff_eq]

theorem getv_append_left (a b : Obj) (k : String) (v : J) (h : getv a k = some v) :
    getv (a ++ b) k = some v := by
  induction a with
  | nil => simp [getv] at h
  | cons kv rest ih =>
    simp only [getv, List.cons_append] at *
    by_cases hk : kv.1 = k
    · simpa [hk] using h
    · simp only [hk, if_false] at h ⊢
      exact ih h

theorem getv_append_none (a b : Obj) (k : String) (h : getv a k = none) :
    getv (a ++ b) k = getv b k := by
  induction a with
  | nil => simp
  | cons kv rest ih =>
    simp only [getv, List.cons_append] at *
    by_cases hk : kv.1 = k
    · simp [hk] at h
    · simp only [hk, if_false] at h ⊢
      exact ih h

theorem objSet_of_not_hasKey (o : Obj) (k : String) (v : J) (h : hasKey o k = false) :
    objSet o k v = o ++ [(k, v)] := by
  simp [objSet, h]

theorem getv_map_overwrite (o : Obj) (k1 k : String) (v : J) :
    getv (o.map (fun kv => if kv.1 == k1 then (k1, v) else kv)) k
      = if k1 = k then (if hasKey o k1 then some v else none)
        else getv o k := by
  induction o with
  | nil => by_cases h : k1 = k <;> simp [getv, hasKey, h]
  | cons kv rest ih =>
    simp only [beq_iff_eq] at ih ⊢
    by_cases hk : kv.1 = k1
    · by_cases hkk : k1 = k
      · simp [getv, hasKey, hk, hkk, beq_iff_eq]
      · simp only [List.map_cons, hk, if_true, getv, hkk, if_false]
        rw [ih, if_neg hkk]
    · simp only [List.map_cons, hk, if_false, getv]
      by_cases hkk : kv.1 = k
      · have hne : ¬ k1 = k := fun hcon => hk (by rw [hkk, hcon])
        simp [getv, hkk, hne]
      · rw [if_neg hkk, ih]
        by_cases h3 : k1 = k
        · subst h3
          have : hasKey (kv :: rest) k1 = hasKey rest k1 := by
            simp [hasKey, hk]
          rw [if_pos rfl, if_pos rfl, this]
        · rw [if_neg h3, if_neg h3, if_neg hkk]

theorem getv_objSet_self (o : Obj) (k : String) (v : J) :
    getv (objSet o k v) k = some v := by
  unfold objSet
  by_cases h : hasKey o k
  · rw [if_pos h, getv_map_overwrite, if_pos rfl, if_pos h]
  · rw [if_neg h]
    rw [getv_append_none _ _ _ ((hasKey_false_iff_getv_none o k).mp (Bool.not_eq_true _ ▸ h))]
    simp [getv]

theorem getv_objSet_ne (o : Obj) (k1 k : String) (v : J) (h : k1 ≠ k) :
    getv (objSet o k1 v) k = getv o k := by
  unfold objSet
  by_cases hh : hasKey o k1
  · rw [if_pos hh, getv_map_overwrite, if_neg h]
  · rw [if_neg hh]
    cases hg : getv o k with
    | some w => rw [getv_append_left _ _ _ _ hg]
    | none =>
      rw [getv_append_none _ _ _ hg]
      simp [getv, h]

theorem isSome_getv_objSet (o : Obj) (k1 k : String) (v : J)
    (h : (getv o k).isSome = true) : (getv (objSet o k1 v) k).isSome = true := by
  by_cases hk : k1 = k
  · rw [hk, getv_objSet_self]; rfl
  · rw [getv_objSet_ne _ _ _ _ hk]; exact h

/-!
## Fold lemmas for the extraction and preservation loops
-/

theorem foldl_objSet_filter (cond : String → J → Bool) :
    ∀ (l : List (String × J)) (acc : Obj),
      (l.map Prod.fst).Nodup → (∀ kv ∈ l, hasKey acc kv.1 = false) →
      l.foldl (fun a kv => if cond kv.1 kv.2 then objSet a kv.1 kv.2 else a) acc
        = acc ++ l.filter (fun kv => cond kv.1 kv.2) := by
  intro l
  induction l with
  | nil => intro acc _ _; simp
  | cons kv rest ih =>
    intro acc hnd hdisj
    have hnd2 := hnd
    rw [List.map_cons, List.nodup_cons] at hnd2
    obtain ⟨hknr, hndr⟩ := hnd2
    by_cases hc : cond kv.1 kv.2
    · have hfresh : hasKey acc kv.1 = false := hdisj kv (List.mem_cons_self _ _)
      have hset : objSet acc kv.1 kv.2 = acc ++ [(kv.1, kv.2)] :=
        objSet_of_not_hasKey _ _ _ hfresh
      simp only [List.foldl_cons]
      rw [if_pos hc, hset, ih (acc ++ [(kv.1, kv.2)]) hndr]
      · simp [List.filter_cons, hc]
      · intro kv2 hkv2
        have h1 : hasKey acc kv2.1 = false := hdisj kv2 (List.mem_cons_of_mem _ hkv2)
        have h2 : kv.1 ≠ kv2.1 := fun hcon =>
          hknr (hcon ▸ List.mem_map_of_mem Prod.fst hkv2)
        unfold hasKey at h1 ⊢
        rw [List.any_append, Bool.or_eq_false_iff]
        refine ⟨h1, ?_⟩
        simp only [List.any_cons, List.any_nil, Bool.or_false, beq_iff_eq]
        exact decide_eq_false h2
    · simp only [List.foldl_cons]
      rw [if_neg hc, ih acc hndr (fun kv2 hkv2 => hdisj kv2 (List.mem_cons_of_mem _ hkv2))]
      simp [List.filter_cons, hc]

theorem getv_filter_of_getv (p : String × J → Bool) :
    ∀ (l : Obj) (k : String) (v : J), getv l k = some v → p (k, v) = true →
      getv (l.filter p) k = some v := by
  intro l
  induction l with
  | nil => intro k v h _; simp [getv] at h
  | cons kv rest ih =>
    intro k v h hp
    by_cases hk : kv.1 = k
    · have hv : kv.2 = v := by
        simpa [getv, hk] using h
      have hkv : kv = (k, v) := by
        cases kv; simp_all
      rw [hkv]
      rw [List.filter_cons_of_pos hp]
      simp [getv]
    · have h2 : getv rest k = some v := by
        simpa [getv, hk] using h
      cases hpk : p kv with
      | true =>
        rw [List.filter_cons_of_pos hpk]
        simp only [getv, hk, if_false]
        exact ih k v h2 hp
      | false =>
        rw [List.filter_cons_of_neg (by simp [hpk])]
        exact ih k v h2 hp

theorem preserveFields_getv_excluded (merged : Obj) :
    ∀ (acc : Obj) (k : String), excludedKeys.contains k = true →
      getv (preserveFields merged acc) k = getv acc k := by
  induction merged with
  | nil => intro acc k _; simp [preserveFields]
  | cons kv rest ih =>
    intro acc k hk
    unfold preserveFields at *
    simp only [List.foldl_cons]
    by_cases h1 : excludedKeys.contains kv.1
    · rw [if_pos h1]
      exact ih acc k hk
    · rw [if_neg h1]
      by_cases h2 : hasKey acc kv.1
      · rw [if_pos h2]
        exact ih acc k hk
      · rw [if_neg h2, ih (objSet acc kv.1 kv.2) k hk]
        have hne : kv.1 ≠ k := by
          intro hcon
          rw [hcon] at h1
          exact h1 hk
        exact getv_objSet_ne _ _ _ _ hne

theorem preserveFields_getv_mono (merged : Obj) :
    ∀ (acc : Obj) (k : String) (v : J), getv acc k = some v →
      getv (preserveFields merged acc) k = some v := by
  induction merged with
  | nil => intro acc k v h; simpa [preserveFields] using h
  | cons kv rest ih =>
    intro acc k v h
    unfold preserveFields at *
    simp only [List.foldl_cons]
    by_cases h1 : excludedKeys.contains kv.1
    · rw [if_pos h1]
      exact ih acc k v h
    · rw [if_neg h1]
      by_cases h2 : hasKey acc kv.1
      · rw [if_pos h2]
        exact ih acc k v h
      · rw [if_neg h2]
        refine ih (objSet acc kv.1 kv.2) k v ?_
        have hne : kv.1 ≠ k := by
          intro hcon
          subst hcon
          cases hhk : hasKey acc kv.1 with
          | false => rw [(hasKey_false_iff_getv_none _ _).mp hhk] at h; cases h
          | true => exact h2 hhk
        rw [getv_objSet_ne _ _ _ _ hne]
        exact h

theorem preserveFields_getv_new (merged : Obj) :
    ∀ (acc : Obj) (k : String) (v : J),
      excludedKeys.contains k = false → getv merged k = some v → getv acc k = none →
      getv (preserveFields merged acc) k = some v := by
  induction merged with
  | nil => intro acc k v _ hm _; simp [getv] at hm
  | cons kv rest ih =>
    intro acc k v hk hm ha
    unfold preserveFields at *
    simp only [List.foldl_cons]
    by_cases hkk : kv.1 = k
    · have hv : kv.2 = v := by
        simpa [getv, hkk] using hm
      rw [hkk]
      rw [if_neg (by rw [hk]; exact Bool.false_ne_true)]
      have h2 : hasKey acc k = false := (hasKey_false_iff_getv_none acc k).mpr ha
      rw [if_neg (by rw [h2]; exact Bool.false_ne_true)]
      rw [hv]
      exact preserveFields_getv_mono rest _ k v (getv_objSet_self acc k v)
    · have hm2 : getv rest k = some v := by
        simpa [getv, hkk] using hm
      by_cases h1 : excludedKeys.contains kv.1
      · rw [if_pos h1]
        exact ih acc k v hk hm2 ha
      · rw [if_neg h1]
        by_cases h2 : hasKey acc kv.1
        · rw [if_pos h2]
          exact ih acc k v hk hm2 ha
        · rw [if_neg h2]
          refine ih (objSet acc kv.1 kv.2) k v hk hm2 ?_
          rw [getv_objSet_ne _ _ _ _ hkk]
          exact ha

/-!
## Bridge lemmas for the normalizer
-/

theorem jsGet_of_getv_some (o : Obj) (k : String) (v : J) (h : getv o k = some v) :
    jsGet o k = v := by
  simp [jsGet, h]

theorem jsGet_of_getv_none (o : Obj) (k : String) (h : getv o k = none) :
    jsGet o k = J.undef := by
  simp [jsGet, h]

theorem mergedOf_empty_extra (pf : Obj) : mergedOf (J.obj pf) (J.obj []) = pf := rfl

theorem extractMetrics_heuristic (pf : Obj) (hnd : (pf.map Prod.fst).Nodup)
    (h : getv pf "metrics" = none) :
    extractMetrics (J.obj pf) = pf.filter (fun kv => metricCond kv.1 kv.2) := by
  simp only [extractMetrics]
  rw [jsGet_of_getv_none _ _ h]
  exact foldl_objSet_filter metricCond pf [] hnd (fun kv _ => rfl)

theorem extractMetrics_authoritative (pf m : Obj) (hnd : (m.map Prod.fst).Nodup)
    (h : getv pf "metrics" = some (J.obj m)) :
    extractMetrics (J.obj pf) = m.filter (fun kv => kv.2.isNum) := by
  simp only [extractMetrics]
  rw [jsGet_of_getv_some _ _ _ h]
  exact foldl_objSet_filter (fun _ v => v.isNum) m [] hnd (fun kv _ => rfl)

theorem ctxFold_isSome (pf : Obj) (k : String) :
    ∀ (l : List (String × String)) (acc : Obj), (getv acc k).isSome = true →
      (getv (l.foldl (fun acc fm =>
        if (jsGet pf fm.1).isUndef then acc else objSet acc fm.2 (jsGet pf fm.1)) acc) k).isSome
        = true := by
  intro l
  induction l with
  | nil => intro acc h; simpa using h
  | cons fm rest ih =>
    intro acc h
    simp only [List.foldl_cons]
    by_cases hu : (jsGet pf fm.1).isUndef
    · rw [if_pos hu]
      exact ih acc h
    · rw [if_neg hu]
      exact ih _ (isSome_getv_objSet _ _ _ _ h)

theorem extractContext_trace_id (pf : Obj) (t : String)
    (hco : getv pf "context" = none) (htr : getv pf "trace_id" = some (J.str t)) :
    (getv (extractContext (J.obj pf)) "trace_id").isSome = true := by
  simp only [extractContext]
  rw [jsGet_of_getv_none _ _ hco]
  rw [show contextFieldMap = ("trace_id", "trace_id") :: contextFieldMap.tail from rfl]
  simp only [List.foldl_cons]
  rw [jsGet_of_getv_some _ _ _ htr]
  rw [if_neg (by simp [J.isUndef])]
  exact ctxFold_isSome pf "trace_id" contextFieldMap.tail _
    (by rw [getv_objSet_self]; rfl)

theorem getv_hybridCore_message (message level : J) (merged : Obj) :
    getv (hybridCore message level merged) "message" = some (resolveMessage message merged) := by
  unfold hybridCore
  by_cases ha : truthy (jsGet merged "_annotation")
  · rw [if_pos ha, getv_objSet_ne _ _ _ _ (by decide)]
    simp [getv]
  · rw [if_neg ha]
    simp [getv]

theorem getv_hybridCore_metrics (message level : J) (merged : Obj) :
    getv (hybridCore message level merged) "metrics"
      = some (J.obj (extractMetrics (J.obj merged))) := by
  unfold hybridCore
  by_cases ha : truthy (jsGet merged "_annotation")
  · rw [if_pos ha, getv_objSet_ne _ _ _ _ (by decide)]
    simp [getv]
  · rw [if_neg ha]
    simp [getv]

theorem getv_hybridCore_context (message level : J) (merged : Obj) :
    getv (hybridCore message level merged) "context"
      = some (J.obj (extractContext (J.obj merged))) := by
  unfold hybridCore
  by_cases ha : truthy (jsGet merged "_annotation")
  · rw [if_pos ha, getv_objSet_ne _ _ _ _ (by decide)]
    simp [getv]
  · rw [if_neg ha]
    simp [getv]

theorem getv_hybridCore_other (message level : J) (merged : Obj) (k : String)
    (h1 : "message" ≠ k) (h2 : "level" ≠ k) (h3 : "metrics" ≠ k)
    (h4 : "context" ≠ k) (h5 : "_annotation" ≠ k) :
    getv (hybridCore message level merged) k = none := by
  unfold hybridCore
  by_cases ha : truthy (jsGet merged "_annotation")
  · rw [if_pos ha, getv_objSet_ne _ _ _ _ h5]
    simp [getv, h1, h2, h3, h4]
  · rw [if_neg ha]
    simp [getv, h1, h2, h3, h4]

theorem getv_normalizeToHybrid_message (message level payload extra : J) :
    getv (normalizeToHybrid message level payload extra) "message"
      = some (resolveMessage message (mergedOf payload extra)) := by
  unfold normalizeToHybrid
  rw [preserveFields_getv_excluded _ _ _ (by decide)]
  exact getv_hybridCore_message _ _ _

theorem getv_normalizeToHybrid_metrics (message level payload extra : J) :
    getv (normalizeToHybrid message level payload extra) "metrics"
      = some (J.obj (extractMetrics (J.obj (mergedOf payload extra)))) := by
  unfold normalizeToHybrid
  rw [preserveFields_getv_excluded _ _ _ (by decide)]
  exact getv_hybridCore_metrics _ _ _

theorem getv_normalizeToHybrid_context (message level payload extra : J) :
    getv (normalizeToHybrid message level payload extra) "context"
      = some (J.obj (extractContext (J.obj (mergedOf payload extra)))) := by
  unfold normalizeToHybrid
  rw [preserveFields_getv_excluded _ _ _ (by decide)]
  exact getv_hybridCore_context _ _ _

theorem getv_normalizeToHybrid_preserved (message level payload extra : J) (k : String) (v : J)
    (hx : excludedKeys.contains k = false)
    (h1 : "message" ≠ k) (h2 : "level" ≠ k) (h3 : "metrics" ≠ k) (h4 : "context" ≠ k)
    (hm : getv (mergedOf payload extra) k = some v) :
    getv (normalizeToHybrid message level payload extra) k = some v := by
  unfold normalizeToHybrid
  have h5 : "_annotation" ≠ k := by
    intro hcon
    rw [← hcon] at hx
    simp [excludedKeys] at hx
  exact preserveFields_getv_new _ _ _ _ hx hm
    (getv_hybridCore_other _ _ _ _ h1 h2 h3 h4 h5)

/-!
## Claim theorems for the normalizer (C2, C8, C10)
-/

/-- The concrete round-trip payload of the spec's C2 scenario. -/
def c2Payload : Obj := [("cpu", J.num 10), ("trace_id", J.str "abc"), ("message", J.str "m")]

theorem metricCond_cpu (c : Int) : metricCond "cpu" (J.num c) = true := by
  with_unfolding_all rfl

/-- C2 counterexample: on the round-trip input, `normalizeToHybrid` puts
`cpu` into `metrics` and `trace_id` into `context`, but the
backward-compatibility preservation loop also copies `cpu` and `trace_id`
verbatim as top-level output fields — so the claimed disjointness of the
container keys from the preserved remaining fields fails: `cpu` and
`trace_id` each appear twice in the output. -/
theorem c2_counterexample :
    getv (normalizeToHybrid (J.str "m") (J.str "warn") (J.obj c2Payload) (J.obj [])) "metrics"
      = some (J.obj [("cpu", J.num 10)]) ∧
    getv (normalizeToHybrid (J.str "m") (J.str "warn") (J.obj c2Payload) (J.obj [])) "context"
      = some (J.obj [("trace_id", J.str "abc")]) ∧
    getv (normalizeToHybrid (J.str "m") (J.str "warn") (J.obj c2Payload) (J.obj [])) "cpu"
      = some (J.num 10) ∧
    getv (normalizeToHybrid (J.str "m") (J.str "warn") (J.obj c2Payload) (J.obj [])) "trace_id"
      = some (J.str "abc") := by
  refine ⟨?_, ?_, ?_, ?_⟩ <;> with_unfolding_all rfl

/-- C2 as amended: for every payload with a numeric `cpu` and a string
`trace_id` at top level and no `metrics`/`context` key, the output's
`metrics` contains `cpu` with the same value and its `context` contains
`trace_id`; but `cpu` and `trace_id` are additionally preserved verbatim
as top-level fields of the hybrid record (deliberate backward
compatibility), so fields claimed by the containers do appear twice; only
the literal keys message/level/metrics/context are never duplicated. -/
theorem c2_hybrid_containers (message level : J) (pf : Obj) (c : Int) (t : String)
    (hnd : (pf.map Prod.fst).Nodup)
    (hcpu : getv pf "cpu" = some (J.num c))
    (htr : getv pf "trace_id" = some (J.str t))
    (hme : getv pf "metrics" = none)
    (hco : getv pf "context" = none) :
    getv (extractMetrics (J.obj pf)) "cpu" = some (J.num c) ∧
    (getv (extractContext (J.obj pf)) "trace_id").isSome = true ∧
    getv (normalizeToHybrid message level (J.obj pf) (J.obj [])) "metrics"
      = some (J.obj (extractMetrics (J.obj pf))) ∧
    getv (normalizeToHybrid message level (J.obj pf) (J.obj [])) "context"
      = some (J.obj (extractContext (J.obj pf))) ∧
    getv (normalizeToHybrid message level (J.obj pf) (J.obj [])) "cpu" = some (J.num c) ∧
    getv (normalizeToHybrid message level (J.obj pf) (J.obj [])) "trace_id" = some (J.str t) := by
  refine ⟨?_, ?_, ?_, ?_, ?_, ?_⟩
  · rw [extractMetrics_heuristic pf hnd hme]
    exact getv_filter_of_getv _ pf "cpu" _ hcpu (metricCond_cpu c)
  · exact extractContext_trace_id pf t hco htr
  · rw [getv_normalizeToHybrid_metrics, mergedOf_empty_extra]
  · rw [getv_normalizeToHybrid_context, mergedOf_empty_extra]
  · exact getv_normalizeToHybrid_preserved _ _ _ _ "cpu" _ (by decide)
      (by decide) (by decide) (by decide) (by decide)
      (by rw [mergedOf_empty_extra]; exact hcpu)
  · exact getv_normalizeToHybrid_preserved _ _ _ _ "trace_id" _ (by decide)
      (by decide) (by decide) (by decide) (by decide)
      (by rw [mergedOf_empty_extra]; exact htr)

/-- Witness for the amended C2 at the spec's concrete round-trip input. -/
theorem c2_hybrid_containers_witness :
    ((c2Payload.map Prod.fst).Nodup ∧
     getv c2Payload "cpu" = some (J.num 10) ∧
     getv c2Payload "trace_id" = some (J.str "abc") ∧
     getv c2Payload "metrics" = none ∧
     getv c2Payload "context" = none) ∧
    (getv (extractMetrics (J.obj c2Payload)) "cpu" = some (J.num 10) ∧
     (getv (extractContext (J.obj c2Payload)) "trace_id").isSome = true ∧
     getv (normalizeToHybrid (J.str "m") (J.str "warn") (J.obj c2Payload) (J.obj [])) "metrics"
       = some (J.obj (extractMetrics (J.obj c2Payload))) ∧
     getv (normalizeToHybrid (J.str "m") (J.str "warn") (J.obj c2Payload) (J.obj [])) "context"
       = some (J.obj (extractContext (J.obj c2Payload))) ∧
     getv (normalizeToHybrid (J.str "m") (J.str "warn") (J.obj c2Payload) (J.obj [])) "cpu"
       = some (J.num 10) ∧
     getv (normalizeToHybrid (J.str "m") (J.str "warn") (J.obj c2Payload) (J.obj [])) "trace_id"
       = some (J.str "abc")) :=
  ⟨⟨by decide, rfl, rfl, rfl, rfl⟩,
   c2_hybrid_containers (J.str "m") (J.str "warn") c2Payload 10 "abc"
     (by decide) rfl rfl rfl rfl⟩

/-- C8: for every payload (with unique keys, as JS objects have) carrying
a numeric `cpu` field and no `metrics` key, `extractMetrics` outputs
`cpu` with the same value; and whenever the payload carries a `metrics`
object, extraction copies exactly its numeric-valued entries verbatim —
the result is the numeric-entry filter of that object, so no heuristic
touches any other top-level key. -/
theorem c8_metrics_extraction (pf m : Obj) (c : Int)
    (hndp : (pf.map Prod.fst).Nodup) (hndm : (m.map Prod.fst).Nodup) :
    ((getv pf "cpu" = some (J.num c) ∧ getv pf "metrics" = none) →
      getv (extractMetrics (J.obj pf)) "cpu" = some (J.num c)) ∧
    ((m.map Prod.fst).Nodup → getv pf "metrics" = some (J.obj m) →
      extractMetrics (J.obj pf) = m.filter (fun kv => kv.2.isNum)) := by
  constructor
  · rintro ⟨hcpu, hme⟩
    rw [extractMetrics_heuristic pf hndp hme]
    exact getv_filter_of_getv _ pf "cpu" _ hcpu (metricCond_cpu c)
  · intro _ h
    exact extractMetrics_authoritative pf m hndm h

/-- Witness for C8 at a concrete payload. -/
theorem c8_metrics_extraction_witness :
    ((([("cpu", J.num 7)] : Obj).map Prod.fst).Nodup ∧
     (([("a", J.num 1), ("b", J.str "x")] : Obj).map Prod.fst).Nodup) ∧
    (((getv [("cpu", J.num 7)] "cpu" = some (J.num 7) ∧
       getv [("cpu", J.num 7)] "metrics" = none) →
      getv (extractMetrics (J.obj [("cpu", J.num 7)])) "cpu" = some (J.num 7)) ∧
     ((([("a", J.num 1), ("b", J.str "x")] : Obj).map Prod.fst).Nodup →
      getv [("cpu", J.num 7)] "metrics" = some (J.obj [("a", J.num 1), ("b", J.str "x")]) →
      extractMetrics (J.obj [("cpu", J.num 7)])
        = ([("a", J.num 1), ("b", J.str "x")] : Obj).filter (fun kv => kv.2.isNum))) :=
  ⟨⟨by decide, by decide⟩,
   c8_metrics_extraction [("cpu", J.num 7)] [("a", J.num 1), ("b", J.str "x")] 7
     (by decide) (by decide)⟩

/-- C10: when the explicit `message` argument of `normalizeToHybrid` is
falsy (e.g. the empty string, not only absent), the output message is
resolved from the merged payload's truthy `message` field, else its
truthy `msg` field — the falsy explicit message is not preserved in
those cases. -/
theorem c10_message_fallback (message level payload extra : J)
    (hm : truthy message = false) :
    (truthy (jsGet (mergedOf payload extra) "message") = true →
      getv (normalizeToHybrid message level payload extra) "message"
        = some (jsGet (mergedOf payload extra) "message")) ∧
    (truthy (jsGet (mergedOf payload extra) "message") = false →
      truthy (jsGet (mergedOf payload extra) "msg") = true →
      getv (normalizeToHybrid message level payload extra) "message"
        = some (jsGet (mergedOf payload extra) "msg")) := by
  constructor
  · intro h1
    rw [getv_normalizeToHybrid_message]
    unfold resolveMessage
    simp [hm, h1]
  · intro h1 h2
    rw [getv_normalizeToHybrid_message]
    unfold resolveMessage
    simp [hm, h1, h2]

/-- Witness for C10: the empty-string message falls back to the payload's
`message` field. -/
theorem c10_message_fallback_witness :
    truthy (J.str "") = false ∧
    ((truthy (jsGet (mergedOf (J.obj [("message", J.str "x")]) (J.obj [])) "message") = true →
      getv (normalizeToHybrid (J.str "") J.undef (J.obj [("message", J.str "x")]) (J.obj []))
        "message" = some (jsGet (mergedOf (J.obj [("message", J.str "x")]) (J.obj [])) "message")) ∧
     (truthy (jsGet (mergedOf (J.obj [("message", J.str "x")]) (J.obj [])) "message") = false →
      truthy (jsGet (mergedOf (J.obj [("message", J.str "x")]) (J.obj [])) "msg") = true →
      getv (normalizeToHybrid (J.str "") J.undef (J.obj [("message", J.str "x")]) (J.obj []))
        "message" = some (jsGet (mergedOf (J.obj [("message", J.str "x")]) (J.obj [])) "msg"))) :=
  ⟨rfl, c10_message_fallback (J.str "") J.undef (J.obj [("message", J.str "x")]) (J.obj []) rfl⟩

/-!
## Dispatcher lemmas
-/

/-- A sequence of `sendLog` calls with no intervening batch extraction:
the final state and the list of accepted/rejected flags in call order. -/
def enqueueAll : DState → List LogEntry → DState × List Bool
  | s, [] => (s, [])
  | s, e :: rest =>
    let r1 := sendLog s e
    let r2 := enqueueAll r1.1 rest
    (r2.1, r1.2 :: r2.2)

theorem scheduleBatch_fields (s : DState) :
    (scheduleBatch s).disabled = s.disabled ∧
    (scheduleBatch s).disabledPermanently = s.disabledPermanently ∧
    (scheduleBatch s).configValid = s.configValid ∧
    (scheduleBatch s).logQueue = s.logQueue ∧
    (scheduleBatch s).shutdown = s.shutdown ∧
    (scheduleBatch s).sent = s.sent := by
  unfold scheduleBatch
  split <;> simp

theorem sendLog_of_perm (s : DState) (e : LogEntry) (h : s.disabledPermanently = true) :
    sendLog s e = (s, false) := by
  unfold sendLog
  rw [if_pos (by rw [h, Bool.or_true])]

theorem sendBatchEffect_of_perm (s : DState) (batch : List LogEntry)
    (resp : Option HttpResponse) (h : s.disabledPermanently = true) :
    sendBatchEffect s batch resp = s := by
  unfold sendBatchEffect
  rw [if_pos (by rw [h, Bool.or_true])]

theorem sendBatchEffect_perm_mono (s : DState) (batch : List LogEntry)
    (resp : Option HttpResponse) (h : s.disabledPermanently = true) :
    (sendBatchEffect s batch resp).disabledPermanently = true := by
  rw [sendBatchEffect_of_perm s batch resp h]
  exact h

theorem processBatch_of_shutdown (s : DState) (resp : Option HttpResponse)
    (h : s.shutdown = true) :
    processBatch s resp = { s with batchTimeout := false } := by
  unfold processBatch
  rw [if_pos (by rw [h]; simp)]

theorem processBatch_perm_mono (s : DState) (resp : Option HttpResponse)
    (h : s.disabledPermanently = true) :
    (processBatch s resp).disabledPermanently = true := by
  have hsend : ∀ (b : List LogEntry) (s1 : DState), s1.disabledPermanently = true →
      (if 0 < b.length then sendBatchEffect s1 b resp else s1).disabledPermanently = true := by
    intro b s1 h1
    split
    · exact sendBatchEffect_perm_mono _ _ _ h1
    · exact h1
  have hsched : ∀ (s3 : DState), s3.disabledPermanently = true →
      (if (decide (s3.logQueue.isEmpty = false) && decide (s3.shutdown = false)) = true
       then scheduleBatch s3 else s3).disabledPermanently = true := by
    intro s3 h3
    split
    · exact ((scheduleBatch_fields s3).2.1).trans h3
    · exact h3
  unfold processBatch
  split
  · exact h
  · exact hsched _ (hsend _ _ h)

theorem flushLoop_of_perm (rs : List (Option HttpResponse)) (s : DState)
    (h : s.disabledPermanently = true) : flushLoop rs s = s := by
  cases rs with
  | nil => rfl
  | cons r rest =>
    unfold flushLoop
    rw [if_neg]
    simp [h]

theorem flushClient_perm_mono (rs : List (Option HttpResponse)) (s : DState)
    (h : s.disabledPermanently = true) :
    (flushClient rs s).disabledPermanently = true := by
  unfold flushClient
  split
  · exact h
  · rw [flushLoop_of_perm _ _ (by exact h)]
    exact h

theorem stepOp_perm_mono (s : DState) (op : Op) (h : s.disabledPermanently = true) :
    (stepOp s op).disabledPermanently = true := by
  cases op with
  | enq e => rw [stepOp, sendLog_of_perm s e h]; exact h
  | fire resp => exact processBatch_perm_mono s resp h
  | doFlush rs => exact flushClient_perm_mono rs s h

theorem runOps_perm_mono (ops : List Op) :
    ∀ (s : DState), s.disabledPermanently = true →
      (runOps s ops).disabledPermanently = true := by
  induction ops with
  | nil => intro s h; exact h
  | cons op rest ih =>
    intro s h
    exact ih (stepOp s op) (stepOp_perm_mono s op h)

/-!
## Claim theorems for the dispatcher lifecycle (C4, C1, C9)
-/

/-- C4: once a batch send that actually reaches the HTTP layer (client
enabled, valid config, non-empty batch) gets a 401 or 403 response, the
`disabledPermanently` latch is set; it survives any further sequence of
enqueues, batch firings and flushes; and on a permanently disabled state
every enqueue returns `false` and leaves the state (queue included)
completely unchanged. -/
theorem c4_perm_latch (s : DState) (batch : List LogEntry) (r : HttpResponse)
    (ops : List Op) (e : LogEntry)
    (hb : batch ≠ []) (hd : s.disabled = false) (hp : s.disabledPermanently = false)
    (hc : s.configValid = true) (hst : r.status = 401 ∨ r.status = 403) :
    (sendBatchEffect s batch (some r)).disabledPermanently = true ∧
    (runOps (sendBatchEffect s batch (some r)) ops).disabledPermanently = true ∧
    sendLog (runOps (sendBatchEffect s batch (some r)) ops) e
      = (runOps (sendBatchEffect s batch (some r)) ops, false) := by
  have hbe : batch.isEmpty = false := by
    cases batch with
    | nil => exact absurd rfl hb
    | cons a l => rfl
  have h1 : (sendBatchEffect s batch (some r)).disabledPermanently = true := by
    unfold sendBatchEffect
    rw [if_neg (by rw [hbe, hd, hp]; simp), if_neg (by rw [hc]; simp)]
    dsimp only
    rw [if_pos (by rcases hst with h | h <;> rw [h] <;> simp)]
  refine ⟨h1, runOps_perm_mono ops _ h1, sendLog_of_perm _ e (runOps_perm_mono ops _ h1)⟩

/-- Witness for C4 at a concrete enabled state and a 401 response. -/
theorem c4_perm_latch_witness :
    (([⟨"json", J.num 1, 5⟩] : List LogEntry) ≠ [] ∧
     (initClient true).disabled = false ∧
     (initClient true).disabledPermanently = false ∧
     (initClient true).configValid = true ∧
     ((401 : Nat) = 401 ∨ (401 : Nat) = 403)) ∧
    ((sendBatchEffect (initClient true) [⟨"json", J.num 1, 5⟩]
        (some ⟨401, none⟩)).disabledPermanently = true ∧
     (runOps (sendBatchEffect (initClient true) [⟨"json", J.num 1, 5⟩]
        (some ⟨401, none⟩)) []).disabledPermanently = true ∧
     sendLog (runOps (sendBatchEffect (initClient true) [⟨"json", J.num 1, 5⟩]
        (some ⟨401, none⟩)) []) ⟨"json", J.num 2, 6⟩
       = (runOps (sendBatchEffect (initClient true) [⟨"json", J.num 1, 5⟩]
          (some ⟨401, none⟩)) [], false)) :=
  ⟨⟨by simp, rfl, rfl, rfl, Or.inl rfl⟩,
   c4_perm_latch (initClient true) [⟨"json", J.num 1, 5⟩] ⟨401, none⟩ [] ⟨"json", J.num 2, 6⟩
     (by simp) rfl rfl rfl (Or.inl rfl)⟩

theorem flushLoop_of_shutdown (rs : List (Option HttpResponse)) :
    ∀ (s : DState), s.shutdown = true →
      (flushLoop rs s).logQueue = s.logQueue ∧ (flushLoop rs s).sent = s.sent ∧
      (flushLoop rs s).shutdown = true := by
  induction rs with
  | nil => intro s h; exact ⟨rfl, rfl, h⟩
  | cons r rest ih =>
    intro s h
    unfold flushLoop
    split
    · rw [processBatch_of_shutdown s r h]
      exact ih _ h
    · exact ⟨rfl, rfl, h⟩

/-- C1 (the code bug): `flush` can never drain anything.  It sets the
shutting-down latch and then loops on `_processBatch`, but `_processBatch`
returns immediately whenever the shutting-down latch is set, so for every
state and every supply of responses `flush` leaves the queue exactly as it
was and attempts no send — the drain loop spins forever whenever the queue
is non-empty and the client is enabled. -/
theorem c1_flush_never_sends (rs : List (Option HttpResponse)) (s : DState) :
    (flushClient rs s).logQueue = s.logQueue ∧ (flushClient rs s).sent = s.sent := by
  unfold flushClient
  split
  · exact ⟨rfl, rfl⟩
  · have h := flushLoop_of_shutdown rs { s with shutdown := true, batchTimeout := false } rfl
    exact ⟨h.1, h.2.1⟩

theorem flushClient_of_shutdown (rs : List (Option HttpResponse)) (s : DState)
    (h : s.shutdown = true) : flushClient rs s = s := by
  unfold flushClient
  rw [if_pos h]

/-- C9: `flush` is idempotent — it always leaves the shutting-down latch
set, and a second `flush` on any already-shutting-down state returns the
state completely unchanged, so `flush ∘ flush = flush`. -/
theorem c9_flush_idempotent (rs rs2 : List (Option HttpResponse)) (s : DState) :
    (flushClient rs s).shutdown = true ∧
    flushClient rs2 (flushClient rs s) = flushClient rs s := by
  have hsh : (flushClient rs s).shutdown = true := by
    unfold flushClient
    split
    · assumption
    · exact (flushLoop_of_shutdown rs _ rfl).2.2
  exact ⟨hsh, flushClient_of_shutdown rs2 _ hsh⟩

/-!
## Claim theorems for queue admission (C5)
-/

theorem sendLog_full (s : DState) (e : LogEntry)
    (hd : s.disabled = false) (hp : s.disabledPermanently = false) (hc : s.configValid = true)
    (hfull : MAX_QUEUE_SIZE ≤ s.logQueue.length) : sendLog s e = (s, false) := by
  unfold sendLog
  rw [if_neg (by rw [hd, hp]; simp), if_neg (by rw [hc]; simp), if_pos hfull]

theorem sendLog_accept_spec (s : DState) (e : LogEntry)
    (hd : s.disabled = false) (hp : s.disabledPermanently = false) (hc : s.configValid = true)
    (hfree : s.logQueue.length < MAX_QUEUE_SIZE) :
    (sendLog s e).2 = true ∧
    (sendLog s e).1.logQueue = s.logQueue ++ [e] ∧
    (sendLog s e).1.disabled = false ∧
    (sendLog s e).1.disabledPermanently = false ∧
    (sendLog s e).1.configValid = true := by
  unfold sendLog
  rw [if_neg (by rw [hd, hp]; simp), if_neg (by rw [hc]; simp),
    if_neg (Nat.not_le.mpr hfree)]
  dsimp only
  split
  · split
    · exact ⟨rfl, rfl, hd, hp, hc⟩
    · exact ⟨rfl, (scheduleBatch_fields _).2.2.2.1,
        ((scheduleBatch_fields _).1).trans hd,
        ((scheduleBatch_fields _).2.1).trans hp,
        ((scheduleBatch_fields _).2.2.1).trans hc⟩
  · exact ⟨rfl, rfl, hd, hp, hc⟩

theorem range_map_decide_false (M len n : Nat) (h : M ≤ len) :
    (List.range n).map (fun i => decide (len + i < M)) = List.replicate n false := by
  have := List.eq_replicate_of_mem (l := (List.range n).map (fun i => decide (len + i < M)))
    (a := false) ?_
  · simpa using this
  · intro b hb
    simp only [List.mem_map, List.mem_range] at hb
    obtain ⟨i, _, hbi⟩ := hb
    rw [← hbi]
    simp [Nat.not_lt.mpr (le_trans h (Nat.le_add_right len i))]

theorem enqueueAll_spec (es : List LogEntry) :
    ∀ (s : DState), s.disabled = false → s.disabledPermanently = false →
      s.configValid = true →
      (enqueueAll s es).1.logQueue
          = s.logQueue ++ es.take (MAX_QUEUE_SIZE - s.logQueue.length) ∧
      (enqueueAll s es).2
          = (List.range es.length).map
              (fun i => decide (s.logQueue.length + i < MAX_QUEUE_SIZE)) := by
  induction es with
  | nil => intro s _ _ _; exact ⟨by simp [enqueueAll], rfl⟩
  | cons e rest ih =>
    intro s hd hp hc
    by_cases hfull : MAX_QUEUE_SIZE ≤ s.logQueue.length
    · have hz : MAX_QUEUE_SIZE - s.logQueue.length = 0 := Nat.sub_eq_zero_of_le hfull
      obtain ⟨ihq, ihf⟩ := ih s hd hp hc
      unfold enqueueAll
      rw [sendLog_full s e hd hp hc hfull]
      dsimp only
      constructor
      · rw [ihq, hz]
        simp
      · rw [ihf, List.length_cons, range_map_decide_false _ _ _ hfull,
          range_map_decide_false _ _ _ hfull, List.replicate_succ]
    · have hfree : s.logQueue.length < MAX_QUEUE_SIZE := Nat.lt_of_not_le hfull
      obtain ⟨ha, hq, hd2, hp2, hc2⟩ := sendLog_accept_spec s e hd hp hc hfree
      obtain ⟨ihq, ihf⟩ := ih (sendLog s e).1 hd2 hp2 hc2
      have hlen : (sendLog s e).1.logQueue.length = s.logQueue.length + 1 := by
        rw [hq]
        simp
      unfold enqueueAll
      dsimp only
      constructor
      · rw [ihq, hlen, hq]
        have hsplit : MAX_QUEUE_SIZE - s.logQueue.length
            = (MAX_QUEUE_SIZE - (s.logQueue.length + 1)) + 1 := by
          omega
        rw [hsplit, List.take_succ_cons, List.append_assoc, List.singleton_append]
      · rw [ha, ihf, hlen, List.length_cons, List.range_succ_eq_map, List.map_cons,
          List.map_map]
        congr 1
        · simp [hfree]
        · apply List.map_congr_left
          intro i _
          simp only [Function.comp_apply, Nat.succ_eq_add_one]
          congr 2
          omega

/-- C5: starting from an empty enabled dispatcher, a burst of enqueues with
no intervening extraction retains exactly the first 1000 entries in
arrival order (the queue is their order-preserving prefix, never longer
than 1000) and the per-call results are: accepted for the first 1000
arrivals, rejected (dropping the newcomer) for every later one. -/
theorem c5_bounded_admission (s : DState) (es : List LogEntry)
    (hd : s.disabled = false) (hp : s.disabledPermanently = false)
    (hc : s.configValid = true) (hq : s.logQueue = []) :
    (enqueueAll s es).1.logQueue = es.take MAX_QUEUE_SIZE ∧
    (enqueueAll s es).2
      = (List.range es.length).map (fun i => decide (i < MAX_QUEUE_SIZE)) := by
  obtain ⟨h1, h2⟩ := enqueueAll_spec es s hd hp hc
  rw [hq] at h1 h2
  constructor
  · simpa using h1
  · simpa using h2

/-- Witness for C5 on a small concrete burst. -/
theorem c5_bounded_admission_witness :
    ((initClient true).disabled = false ∧
     (initClient true).disabledPermanently = false ∧
     (initClient true).configValid = true ∧
     (initClient true).logQueue = []) ∧
    ((enqueueAll (initClient true)
        [⟨"json", J.num 1, 1⟩, ⟨"json", J.num 2, 2⟩, ⟨"json", J.num 3, 3⟩]).1.logQueue
      = ([⟨"json", J.num 1, 1⟩, ⟨"json", J.num 2, 2⟩, ⟨"json", J.num 3, 3⟩]
          : List LogEntry).take MAX_QUEUE_SIZE ∧
     (enqueueAll (initClient true)
        [⟨"json", J.num 1, 1⟩, ⟨"json", J.num 2, 2⟩, ⟨"json", J.num 3, 3⟩]).2
      = (List.range ([⟨"json", J.num 1, 1⟩, ⟨"json", J.num 2, 2⟩, ⟨"json", J.num 3, 3⟩]
          : List LogEntry).length).map (fun i => decide (i < MAX_QUEUE_SIZE))) :=
  ⟨⟨rfl, rfl, rfl, rfl⟩,
   c5_bounded_admission (initClient true)
     [⟨"json", J.num 1, 1⟩, ⟨"json", J.num 2, 2⟩, ⟨"json", J.num 3, 3⟩] rfl rfl rfl rfl⟩

/-!
## Claim theorems for the burst scenario (C3)
-/

/-- The i-th entry of the C3 burst. -/
def mkEntry (i : Nat) : LogEntry := { logType := "json", payload := J.num i, timestamp := i }

/-- The 60 entries of the C3 scenario, enqueued back to back. -/
def entries60 : List LogEntry := (List.range 60).map mkEntry

/-- The state and flags after the 60-entry burst into a fresh enabled client. -/
def burst60 : DState × List Bool := enqueueAll (initClient true) entries60

/-- A successful (2xx) response for the C3 scenario sends. -/
def okResp : HttpResponse := { status := 200, body := none }

set_option maxRecDepth 40000

/-- C3 counterexample: after 60 back-to-back accepted enqueues into a
fresh enabled dispatcher, nothing has been dispatched and no immediate
extraction has been scheduled — the first enqueue armed the 100 ms timer,
and `sendLog` only considers the size-triggered immediate dispatch when no
timer is pending, so reaching the 50-entry threshold schedules nothing:
the claim that one batch of 50 is dispatched without waiting for the
scheduling delay is false. -/
theorem c3_counterexample :
    burst60.2 = List.replicate 60 true ∧
    burst60.1.sent = [] ∧
    burst60.1.immediates = 0 ∧
    burst60.1.batchTimeout = true ∧
    burst60.1.logQueue.length = 60 := by
  refine ⟨?_, ?_, ?_, ?_, ?_⟩ <;> with_unfolding_all rfl

/-- C3 as amended: in the 60-entry burst all 60 entries are accepted and
the first enqueue arms the interval timer; because a timer is already
pending, reaching the batch-size threshold of 50 schedules no immediate
extraction and nothing is dispatched before the delay elapses; when the
timer fires, exactly one batch of the first 50 entries is dispatched and
the timer is re-armed; the remaining 10 are dispatched at the next timer
firing. -/
theorem c3_burst_flow :
    burst60.2 = List.replicate 60 true ∧
    burst60.1.sent = [] ∧
    burst60.1.immediates = 0 ∧
    burst60.1.batchTimeout = true ∧
    (processBatch burst60.1 (some okResp)).sent = [entries60.take 50] ∧
    (processBatch burst60.1 (some okResp)).logQueue = entries60.drop 50 ∧
    (processBatch burst60.1 (some okResp)).batchTimeout = true ∧
    (processBatch (processBatch burst60.1 (some okResp)) (some okResp)).sent
      = [entries60.take 50, entries60.drop 50] ∧
    (processBatch (processBatch burst60.1 (some okResp)) (some okResp)).logQueue = [] := by
  refine ⟨?_, ?_, ?_, ?_, ?_, ?_, ?_, ?_, ?_⟩ <;> with_unfolding_all rfl

/-!
## Claim theorems for response classification (C7)
-/

/-- C7: for a send that reaches the HTTP layer, a 429 response sets the
permanent-disable latch exactly when the body signals the hard
history-limit (`error === 'History Limit Reached'` or the resolved message
contains `'history limit'`); an ordinary 429 without that signal, any
other status apart from 401/403/429 (404 and other non-2xx included), and
a transport failure all leave the state unchanged apart from recording
the attempted batch — the batch is discarded (the queue is untouched) and
no retry happens. -/
theorem c7_status_handling (s : DState) (batch : List LogEntry) (r : HttpResponse)
    (hb : batch ≠ []) (hd : s.disabled = false) (hp : s.disabledPermanently = false)
    (hc : s.configValid = true) :
    (r.status = 429 →
      ((sendBatchEffect s batch (some r)).disabledPermanently = true
        ↔ isHistoryLimitResp r = true)) ∧
    (r.status = 429 → isHistoryLimitResp r = false →
      sendBatchEffect s batch (some r) = { s with sent := s.sent ++ [batch] }) ∧
    (r.status ≠ 401 → r.status ≠ 403 → r.status ≠ 429 →
      sendBatchEffect s batch (some r) = { s with sent := s.sent ++ [batch] }) ∧
    sendBatchEffect s batch none = { s with sent := s.sent ++ [batch] } := by
  have hbe : batch.isEmpty = false := by
    cases batch with
    | nil => exact absurd rfl hb
    | cons a l => rfl
  refine ⟨?_, ?_, ?_, ?_⟩
  · intro h429
    unfold sendBatchEffect
    rw [if_neg (by rw [hbe, hd, hp]; simp), if_neg (by rw [hc]; simp)]
    dsimp only
    rw [if_neg (by rw [h429]; simp), if_pos (by rw [h429]; simp)]
    cases hH : isHistoryLimitResp r
    · simp [hp]
    · simp
  · intro h429 hH
    unfold sendBatchEffect
    rw [if_neg (by rw [hbe, hd, hp]; simp), if_neg (by rw [hc]; simp)]
    dsimp only
    rw [if_neg (by rw [h429]; simp), if_pos (by rw [h429]; simp),
      if_neg (by rw [hH]; exact Bool.false_ne_true)]
  · intro h1 h2 h3
    unfold sendBatchEffect
    rw [if_neg (by rw [hbe, hd, hp]; simp), if_neg (by rw [hc]; simp)]
    dsimp only
    rw [if_neg (by simp [h1, h2]), if_neg (by simp [h3])]
  · unfold sendBatchEffect
    rw [if_neg (by rw [hbe, hd, hp]; simp), if_neg (by rw [hc]; simp)]

/-- Witness for C7: a 429 carrying the hard history-limit error code on a
fresh enabled client. -/
theorem c7_status_handling_witness :
    (([⟨"json", J.num 1, 5⟩] : List LogEntry) ≠ [] ∧
     (initClient true).disabled = false ∧
     (initClient true).disabledPermanently = false ∧
     (initClient true).configValid = true) ∧
    (((429 : Nat) = 429 →
      ((sendBatchEffect (initClient true) [⟨"json", J.num 1, 5⟩]
          (some ⟨429, some (some "History Limit Reached", none)⟩)).disabledPermanently = true
        ↔ isHistoryLimitResp ⟨429, some (some "History Limit Reached", none)⟩ = true)) ∧
     ((429 : Nat) = 429 →
        isHistoryLimitResp ⟨429, some (some "History Limit Reached", none)⟩ = false →
        sendBatchEffect (initClient true) [⟨"json", J.num 1, 5⟩]
          (some ⟨429, some (some "History Limit Reached", none)⟩)
          = { initClient true with sent := (initClient true).sent ++ [[⟨"json", J.num 1, 5⟩]] }) ∧
     ((429 : Nat) ≠ 401 → (429 : Nat) ≠ 403 → (429 : Nat) ≠ 429 →
        sendBatchEffect (initClient true) [⟨"json", J.num 1, 5⟩]
          (some ⟨429, some (some "History Limit Reached", none)⟩)
          = { initClient true with sent := (initClient true).sent ++ [[⟨"json", J.num 1, 5⟩]] }) ∧
     sendBatchEffect (initClient true) [⟨"json", J.num 1, 5⟩] none
       = { initClient true with sent := (initClient true).sent ++ [[⟨"json", J.num 1, 5⟩]] }) :=
  ⟨⟨by simp, rfl, rfl, rfl⟩,
   c7_status_handling (initClient true) [⟨"json", J.num 1, 5⟩]
     ⟨429, some (some "History Limit Reached", none)⟩ (by simp) rfl rfl rfl⟩

/-!
## Claim theorems for the handler variants (C6)
-/

/-- The winston record of the C6 scenario: the plain text message
`"started"` at level info, no attached error, no extra fields. -/
def infoStarted : WinstonInfo := { message := "started", level := "info", err := none, extra := [] }

/-- C6 counterexample: the hybrid-supporting handler variant submits the
text message `"started"` wrapped in a hybrid envelope with empty
metrics/context, but the submission's log type is `'json'`, not
`'text'` — the variant passes `'json'` to `sendLog` on every path. -/
theorem c6_counterexample :
    hybridLogSubmissions (fun _ => none) true infoStarted
      = [("json", J.obj [("message", J.str "started"), ("level", J.str "info"),
          ("metrics", J.obj []), ("context", J.obj [])])] ∧
    ("json" : String) ≠ "text" := by
  constructor
  · with_unfolding_all rfl
  · decide

/-- C6 as amended: for every message whose JSON parse is not a plain
object (text logs included), the JSON-only handler variant submits
nothing at all, whatever the client state; the hybrid-supporting variant
(with the client enabled and no attached error) submits exactly one
record — the message wrapped in a hybrid envelope with empty
metrics/context — with log type `'json'` (not `'text'`). -/
theorem c6_text_policy (parse : String → Option J) (info : WinstonInfo) (en : Bool)
    (hnp : isObjParse (parse info.message) = false) (hne : info.err = none) :
    handlerLogSubmissions parse en info = [] ∧
    hybridLogSubmissions parse true info
      = [("json", J.obj [("message", J.str info.message),
          ("level", J.str (normalizeLevel (J.str info.level))),
          ("metrics", J.obj []), ("context", J.obj [])])] := by
  cases hpp : parse info.message with
  | none =>
    constructor
    · simp [handlerLogSubmissions, hpp]
    · simp [hybridLogSubmissions, hpp, hne]
  | some v =>
    cases v
    case obj o =>
      rw [hpp] at hnp
      simp [isObjParse] at hnp
    all_goals exact ⟨by simp [handlerLogSubmissions, hpp],
      by simp [hybridLogSubmissions, hpp, hne]⟩

/-- Witness for the amended C6 at the concrete `"started"` scenario. -/
theorem c6_text_policy_witness :
    (isObjParse ((fun _ => (none : Option J)) infoStarted.message) = false ∧
     infoStarted.err = none) ∧
    (handlerLogSubmissions (fun _ => none) false infoStarted = [] ∧
     hybridLogSubmissions (fun _ => none) true infoStarted
       = [("json", J.obj [("message", J.str infoStarted.message),
           ("level", J.str (normalizeLevel (J.str infoStarted.level))),
           ("metrics", J.obj []), ("context", J.obj [])])]) :=
  ⟨⟨rfl, rfl⟩, c6_text_policy (fun _ => none) infoStarted false rfl rfl⟩
